import Mathlib

/-!
Verification development for the videoclipper backend
(`src/unnamed/part_000`): the transcript chunker `chunkSegments`, the
candidate-extractor response handling, the clip deduplicator, and the
clip-count reconciler of the `/detect-clips` handler.

Modelling conventions:
* JS numbers are modelled as rationals (`ℚ`); the pipeline only adds,
  subtracts, halves and compares them, so no rounding occurs.
* JS strings that are trimmed or joined are modelled as `List Char`
  (`jsTrim` models `String.prototype.trim`, `jsJoin` models
  `Array.prototype.join`); clip titles and such, which are only
  concatenated, stay `String`.
* JS `Array.prototype.sort` is stable; it is modelled by a stable
  insertion sort (`sortClipsBy`).
* `while` loops are modelled as fuel-indexed structural recursions; the
  fuel is the loop's own iteration bound (the split pass carries an
  explicit attempt counter in the source; the filler loop appends exactly
  one clip per iteration and is guarded by `length < userDesiredCount`;
  the chunker's cursor strictly increases, giving `segments.length`
  iterations, which theorem `chunker_termination` certifies against an
  `Option`-valued run that can report fuel exhaustion).
-/

/-- A Whisper transcription segment (JS `{start, end, text}`; the JS field
`end` is a Lean keyword and is called `stop` here). -/
structure Segment where
  start : ℚ
  stop : ℚ
  text : List Char
deriving DecidableEq, Repr

/-- A candidate/selected clip descriptor as produced by the pipeline. -/
structure Clip where
  title : String
  description : String
  startTimeSeconds : ℚ
  endTimeSeconds : ℚ
  reason : String
deriving DecidableEq, Repr

/-- A transcript chunk as pushed by `chunkSegments` (lines 183-188). -/
structure Chunk where
  text : List Char
  segments : List Segment
  startTime : ℚ
  endTime : ℚ
deriving DecidableEq, Repr

/-- Model of `String.prototype.trim`: drop whitespace from both ends. -/
def jsTrim (s : List Char) : List Char :=
  ((s.dropWhile Char.isWhitespace).reverse.dropWhile Char.isWhitespace).reverse

/-- Model of `Array.prototype.join(sep)` for string arrays. -/
def jsJoin (sep : List Char) : List (List Char) → List Char
  | [] => []
  | [x] => x
  | x :: rest => x ++ sep ++ jsJoin sep rest

/-- Model of `Array.prototype.findIndex`: `none` plays the role of `-1`. -/
def jsFindIndex (p : α → Bool) : List α → Option Nat
  | [] => none
  | a :: rest => if p a then some 0 else (jsFindIndex p rest).map (· + 1)

/-! ## Segment Chunker (`chunkSegments`, lines 155-201)

One iteration of the outer `while` loop is split into the pure pieces
`stepEndIdx` (the inner `while` advancing `endSegmentIndex` plus the
clamp to `segments.length - 1`), `stepChunkEnd` (the reassignment of
`chunkEndTime`), `stepEmit` (the conditional `chunks.push`), and
`stepNext` (the cursor update from `findIndex`). -/

/-- The inner `while` of `chunkSegments`: starting from the front of the
list, count how many consecutive segments still satisfy
`segment.end < chunkEndTime`. -/
def advanceEndCount (chunkEndTime : ℚ) : List Segment → Nat
  | [] => 0
  | s :: rest => if s.stop < chunkEndTime then advanceEndCount chunkEndTime rest + 1 else 0

/-- `while (endSegmentIndex < segments.length && segments[endSegmentIndex].end < chunkEndTime) endSegmentIndex++`
started at index `i`. -/
def advanceEnd (segments : List Segment) (chunkEndTime : ℚ) (i : Nat) : Nat :=
  i + advanceEndCount chunkEndTime (segments.drop i)

/-- `endSegmentIndex` at the end of lines 163-171 (the `break` guarded by
`currentSegmentIndex > endSegmentIndex` on line 170 is unreachable: the
loop runs with `i < segments.length`, so `i ≤ segments.length - 1`). -/
def stepEndIdx (segments : List Segment) (chunkSizeSeconds : ℚ) (i : Nat) : Nat :=
  match segments[i]? with
  | some s0 =>
    let e0 := advanceEnd segments (s0.start + chunkSizeSeconds) i
    if segments.length ≤ e0 then segments.length - 1 else e0
  | none => segments.length

/-- `chunkEndTime` after the reassignment on lines 173-177. -/
def stepChunkEnd (segments : List Segment) (chunkSizeSeconds : ℚ) (i : Nat) : ℚ :=
  match segments[stepEndIdx segments chunkSizeSeconds i]? with
  | some s => s.stop
  | none =>
    match segments[segments.length - 1]? with
    | some s => s.stop
    | none =>
      match segments[i]? with
      | some s0 => s0.start + chunkSizeSeconds
      | none => 0

/-- `segments.slice(currentSegmentIndex, endSegmentIndex + 1)` (line 179). -/
def stepSlice (segments : List Segment) (chunkSizeSeconds : ℚ) (i : Nat) : List Segment :=
  (segments.drop i).take (stepEndIdx segments chunkSizeSeconds i + 1 - i)

/-- Lines 180-189: join the member texts with a space and push the chunk
unless the joined text trims to nothing.  (The JS indexes
`currentChunkSegments[0]` and `[length-1]` directly; the slice is never
empty there, the `none` fallbacks below are unreachable.) -/
def stepEmit (segments : List Segment) (chunkSizeSeconds : ℚ) (i : Nat) : Option Chunk :=
  let cur := stepSlice segments chunkSizeSeconds i
  let chunkText := jsJoin [' '] (cur.map (·.text))
  if jsTrim chunkText ≠ [] then
    some { text := chunkText
           segments := cur
           startTime := match cur.head? with | some s => s.start | none => 0
           endTime := match cur.getLast? with | some s => s.stop | none => 0 }
  else none

/-- The cursor update of lines 191-197. -/
def stepNext (segments : List Segment) (chunkSizeSeconds overlapSeconds : ℚ) (i : Nat) : Nat :=
  let nextSegmentStart := stepChunkEnd segments chunkSizeSeconds i - overlapSeconds
  match jsFindIndex (fun s => decide (nextSegmentStart ≤ s.start)) segments with
  | none => stepEndIdx segments chunkSizeSeconds i + 1
  | some k => if k ≤ i then stepEndIdx segments chunkSizeSeconds i + 1 else k

/-- The outer `while` of `chunkSegments`, driven by fuel; each iteration
strictly increases the cursor (`stepNext_gt`), so `segments.length` fuel
runs the loop to completion (`chunker_termination`). -/
def chunkLoop (segments : List Segment) (chunkSizeSeconds overlapSeconds : ℚ) : Nat → Nat → List Chunk
  | 0, _ => []
  | fuel + 1, i =>
    if i < segments.length then
      (match stepEmit segments chunkSizeSeconds i with
       | some c => [c]
       | none => []) ++
        chunkLoop segments chunkSizeSeconds overlapSeconds fuel
          (stepNext segments chunkSizeSeconds overlapSeconds i)
    else []

/-- `chunkSegments(segments, chunkSizeSeconds, overlapSeconds)` (the JS
defaults are 180 and 10; the pipeline calls it with 180 and 20). -/
def chunkSegments (segments : List Segment) (chunkSizeSeconds overlapSeconds : ℚ) : List Chunk :=
  if segments.length = 0 then []
  else chunkLoop segments chunkSizeSeconds overlapSeconds segments.length 0

/-- The same loop, but answering `none` when the fuel runs out while the
loop guard still holds: `chunkLoopO fuel i = some r` certifies that the
`while` loop terminates within `fuel` iterations with result `r`. -/
def chunkLoopO (segments : List Segment) (chunkSizeSeconds overlapSeconds : ℚ) : Nat → Nat → Option (List Chunk)
  | 0, i => if i < segments.length then none else some []
  | fuel + 1, i =>
    if i < segments.length then
      match chunkLoopO segments chunkSizeSeconds overlapSeconds fuel
          (stepNext segments chunkSizeSeconds overlapSeconds i) with
      | some rest =>
        some ((match stepEmit segments chunkSizeSeconds i with
               | some c => [c]
               | none => []) ++ rest)
      | none => none
    else some []

/-! ## Clip Deduplicator (lines 344-365) -/

/-- `const overlapThreshold = 5` (line 346). -/
def overlapThreshold : ℚ := 5

/-- The duplicate test of lines 351-352: the candidate's start is within
the threshold of the accepted clip's start, or the candidate is nested in
the accepted clip's span extended by the threshold. -/
def isDuplicateOf (clip existingUniqueClip : Clip) : Bool :=
  decide (|clip.startTimeSeconds - existingUniqueClip.startTimeSeconds| < overlapThreshold) ||
    (decide (existingUniqueClip.startTimeSeconds ≤ clip.startTimeSeconds) &&
      decide (clip.endTimeSeconds ≤ existingUniqueClip.endTimeSeconds + overlapThreshold))

/-- The first-seen-wins filter of lines 348-362: `uniqueClips` is the
accumulator; a candidate is kept iff no already-accepted clip marks it as
a duplicate (the JS inner loop breaks at the first hit, which `List.any`
reproduces). -/
def dedupeAux : List Clip → List Clip → List Clip
  | uniqueClips, [] => uniqueClips
  | uniqueClips, clip :: rest =>
    if uniqueClips.any (isDuplicateOf clip) then dedupeAux uniqueClips rest
    else dedupeAux (uniqueClips ++ [clip]) rest

/-- Stable insertion used to model JS `Array.prototype.sort` (which is
stable): walk past elements `d` with `lt d c` and insert `c` before the
first element that is not strictly smaller, so that `c` stays in front of
elements it preceded in the input when the comparator ties. -/
def insertClipBy (lt : Clip → Clip → Bool) (c : Clip) : List Clip → List Clip
  | [] => [c]
  | d :: rest => if lt d c then d :: insertClipBy lt c rest else c :: d :: rest

/-- Stable insertion sort: extensionally equal to JS's stable
`Array.prototype.sort` under the same total comparator. -/
def sortClipsBy (lt : Clip → Clip → Bool) : List Clip → List Clip
  | [] => []
  | c :: rest => insertClipBy lt c (sortClipsBy lt rest)

/-- Comparator `(a, b) => a.startTimeSeconds - b.startTimeSeconds`
(ascending by start; line 365). -/
def byStartAsc (a b : Clip) : Bool :=
  decide (a.startTimeSeconds < b.startTimeSeconds)

/-- Comparator `(a, b) => (b.end - b.start) - (a.end - a.start)`
(descending by duration; line 402). -/
def byDurationDesc (a b : Clip) : Bool :=
  decide (b.endTimeSeconds - b.startTimeSeconds < a.endTimeSeconds - a.startTimeSeconds)

/-- The Deduplicator: the first-seen-wins overlap filter (lines 344-363)
followed by the ascending sort on `startTimeSeconds` (line 365). -/
def dedupe (candidates : List Clip) : List Clip :=
  sortClipsBy byStartAsc (dedupeAux [] candidates)

/-! ## Clip Count Reconciler (`/detect-clips` handler, lines 211, 225-232, 367-516) -/

/-- `totalVideoDuration` (line 211): the last segment's end, or 0. -/
def totalVideoDurationOf (segments : List Segment) : ℚ :=
  match segments.getLast? with
  | some s => s.stop
  | none => 0

/-- `clipOption` from the request body; the handler only distinguishes
the string `'userChoice'` from everything else (`aiPick`). -/
inductive ClipOption where
  | userChoice
  | aiPick
deriving DecidableEq, Repr

/-- `desiredClipCount` from the request body: the string `'max'` or a
number (`parseInt` result, modelled as an integer). -/
inductive ClipCount where
  | max
  | num (n : Int)
deriving DecidableEq, Repr

/-- Lines 225-232: `targetMinDuration`/`targetMaxDuration` from the
optional `desiredClipDuration` (`none` models an absent value; `some 0`
is falsy in JS and also keeps the defaults). -/
def targetBounds (desiredClipDuration : Option ℚ) : ℚ × ℚ :=
  match desiredClipDuration with
  | some d =>
    if d ≠ 0 then (max 5 (d - 5), min (d + 15) 120)
    else (10, 60)
  | none => (10, 60)

/-- Lines 367-372: `userDesiredCount`. -/
def userDesiredCountOf (clipOption : ClipOption) (desiredClipCount : ClipCount) (uniqueLen : Nat) : Int :=
  match clipOption with
  | .userChoice =>
    match desiredClipCount with
    | .max => (uniqueLen : Int)
    | .num n => n
  | .aiPick => min (uniqueLen : Int) 3

/-- Lines 379-382: the duration re-filter applied before selection. -/
def currentCandidatesOf (targetMinDuration targetMaxDuration : ℚ) (uniqueClips : List Clip) : List Clip :=
  uniqueClips.filter fun clip =>
    decide (targetMinDuration ≤ clip.endTimeSeconds - clip.startTimeSeconds) &&
      decide (clip.endTimeSeconds - clip.startTimeSeconds ≤ targetMaxDuration)

/-- The split pass (lines 399-442), with the source's own attempt counter
turned into fuel: the loop runs while `tempClips.length < userDesiredCount`
and `currentSplitAttempts < maxTotalSplitAttempts`, so it is started with
`maxTotalSplitAttempts = userDesiredCount * 3` fuel.  `List.indexOf`
models the JS `indexOf` on the object picked out of the filtered copy;
the clip is structurally present in `tempClips`, so the index is found. -/
def splitPass (targetMinDuration : ℚ) (userDesiredCount : Int) : Nat → List Clip → List Clip
  | 0, tempClips => tempClips
  | attemptsLeft + 1, tempClips =>
    if (tempClips.length : Int) < userDesiredCount then
      let splittableClips :=
        sortClipsBy byDurationDesc
          (tempClips.filter fun c =>
            decide (targetMinDuration * 1.5 ≤ c.endTimeSeconds - c.startTimeSeconds))
      match splittableClips with
      | [] => tempClips
      | clipToSplit :: _ =>
        let originalIndex := tempClips.indexOf clipToSplit
        let splitDuration := (clipToSplit.endTimeSeconds - clipToSplit.startTimeSeconds) / 2
        let midpoint := clipToSplit.startTimeSeconds + splitDuration
        let firstHalf : Clip :=
          { clipToSplit with
            title := clipToSplit.title ++ " (Part A)"
            endTimeSeconds := midpoint
            reason := clipToSplit.reason ++ " (Split to meet count)" }
        let secondHalf : Clip :=
          { clipToSplit with
            title := clipToSplit.title ++ " (Part B)"
            startTimeSeconds := midpoint
            reason := clipToSplit.reason ++ " (Split to meet count)" }
        let newHalves :=
          (if targetMinDuration / 2 ≤ firstHalf.endTimeSeconds - firstHalf.startTimeSeconds
           then [firstHalf] else []) ++
          (if targetMinDuration / 2 ≤ secondHalf.endTimeSeconds - secondHalf.startTimeSeconds
           then [secondHalf] else [])
        let tempClips2 :=
          if newHalves.length > 0 then
            sortClipsBy byStartAsc
              (tempClips.take originalIndex ++ newHalves ++ tempClips.drop (originalIndex + 1))
          else
            tempClips.take originalIndex ++ tempClips.drop (originalIndex + 1)
        splitPass targetMinDuration userDesiredCount attemptsLeft tempClips2
    else tempClips

/-- One iteration body of the filler loop (lines 455-489): `none` means
the `break` on remaining duration (line 470); `some (clip, newLastEnd)`
means a clip is pushed and `lastEndTime` becomes `newLastEnd`.  When
`desiredClipDuration` is absent, the JS `newClipStartTime + undefined`
is `NaN`; every comparison against `NaN` is false, so neither `find`
matches and `newClipEndTime` falls back to `totalVideoDuration`
(`segments` is non-empty whenever this pass runs, since it requires
`totalVideoDuration > 0`; with `segments` empty the JS would push a
single clip whose end is `NaN` — a value outside this rational model —
and then stop; the model breaks instead, which no claim exercises). -/
def fillerStep (segments : List Segment) (totalVideoDuration : ℚ)
    (desiredClipDuration : Option ℚ) (targetMinDuration : ℚ)
    (tempClips : List Clip) (lastEndTime : ℚ) : Option (Clip × ℚ) :=
  match desiredClipDuration with
  | some dur =>
    let newClipStartTime0 := lastEndTime
    let newClipEndTime0 := min (newClipStartTime0 + dur) totalVideoDuration
    let newClipStartTime :=
      if segments.length > 0 then
        match segments.find? (fun s =>
            decide (newClipStartTime0 ≤ s.start) && decide (s.start < newClipEndTime0)) with
        | some s => s.start
        | none => newClipStartTime0
      else newClipStartTime0
    let newClipEndTime :=
      if segments.length > 0 then
        match segments.find? (fun s => decide (newClipEndTime0 ≤ s.stop)) with
        | some s => s.stop
        | none => totalVideoDuration
      else newClipEndTime0
    if newClipEndTime - newClipStartTime < targetMinDuration / 2 then none
    else
      some ({ title := "Auto-Generated Clip " ++ toString (tempClips.length + 1)
              description := "Automatically generated segment from video."
              startTimeSeconds := newClipStartTime
              endTimeSeconds := newClipEndTime
              reason := "Automatically generated to meet user's clip count request." },
            newClipEndTime)
  | none =>
    if segments.length > 0 then
      if totalVideoDuration - lastEndTime < targetMinDuration / 2 then none
      else
        some ({ title := "Auto-Generated Clip " ++ toString (tempClips.length + 1)
                description := "Automatically generated segment from video."
                startTimeSeconds := lastEndTime
                endTimeSeconds := totalVideoDuration
                reason := "Automatically generated to meet user's clip count request." },
              totalVideoDuration)
    else none

/-- The filler `while` loop (lines 455-490), fuel-driven: each iteration
appends exactly one clip, and the guard requires
`tempClips.length < userDesiredCount`, so `(userDesiredCount -
tempClips.length).toNat` fuel runs the loop to completion
(`filler_termination`). -/
def fillerLoop (segments : List Segment) (totalVideoDuration : ℚ)
    (desiredClipDuration : Option ℚ) (targetMinDuration : ℚ)
    (userDesiredCount : Int) : Nat → List Clip → ℚ → List Clip
  | 0, tempClips, _ => tempClips
  | fuel + 1, tempClips, lastEndTime =>
    if (tempClips.length : Int) < userDesiredCount ∧ lastEndTime < totalVideoDuration then
      match fillerStep segments totalVideoDuration desiredClipDuration targetMinDuration
          tempClips lastEndTime with
      | none => tempClips
      | some (clip, newEnd) =>
        fillerLoop segments totalVideoDuration desiredClipDuration targetMinDuration
          userDesiredCount fuel (tempClips ++ [clip]) newEnd
    else tempClips

/-- The filler loop answering `none` on fuel exhaustion while the loop
guard still holds; `some` certifies termination within the given fuel. -/
def fillerRunO (segments : List Segment) (totalVideoDuration : ℚ)
    (desiredClipDuration : Option ℚ) (targetMinDuration : ℚ)
    (userDesiredCount : Int) : Nat → List Clip → ℚ → Option (List Clip)
  | 0, tempClips, lastEndTime =>
    if (tempClips.length : Int) < userDesiredCount ∧ lastEndTime < totalVideoDuration then none
    else some tempClips
  | fuel + 1, tempClips, lastEndTime =>
    if (tempClips.length : Int) < userDesiredCount ∧ lastEndTime < totalVideoDuration then
      match fillerStep segments totalVideoDuration desiredClipDuration targetMinDuration
          tempClips lastEndTime with
      | none => some tempClips
      | some (clip, newEnd) =>
        fillerRunO segments totalVideoDuration desiredClipDuration targetMinDuration
          userDesiredCount fuel (tempClips ++ [clip]) newEnd
    else some tempClips

/-- `lastEndTime` initialisation (lines 448-453). -/
def initialLastEnd (segments : List Segment) (tempClips : List Clip) : ℚ :=
  match tempClips.getLast? with
  | some c => c.endTimeSeconds
  | none =>
    match segments.head? with
    | some s => s.start
    | none => 0

/-- The selection of `finalSelectedClips` before the final validity
filter (lines 367-502): the branch on `userDesiredCount` against the
duration-re-filtered candidates, with the split pass, the filler pass and
the truncation `slice(0, userDesiredCount)`. -/
def selectClips (segments : List Segment) (uniqueClips : List Clip)
    (clipOption : ClipOption) (desiredClipCount : ClipCount)
    (desiredClipDuration : Option ℚ) : List Clip :=
  let totalVideoDuration := totalVideoDurationOf segments
  let targetMinDuration := (targetBounds desiredClipDuration).1
  let targetMaxDuration := (targetBounds desiredClipDuration).2
  let userDesiredCount := userDesiredCountOf clipOption desiredClipCount uniqueClips.length
  let currentCandidates := currentCandidatesOf targetMinDuration targetMaxDuration uniqueClips
  if 0 < userDesiredCount ∧ userDesiredCount ≤ (currentCandidates.length : Int) then
    currentCandidates.take userDesiredCount.toNat
  else if 0 < userDesiredCount ∧ (currentCandidates.length : Int) < userDesiredCount ∧
      0 < currentCandidates.length then
    let tempClips :=
      splitPass targetMinDuration userDesiredCount (userDesiredCount * 3).toNat currentCandidates
    let tempClips2 :=
      if (tempClips.length : Int) < userDesiredCount ∧ 0 < totalVideoDuration then
        fillerLoop segments totalVideoDuration desiredClipDuration targetMinDuration
          userDesiredCount (userDesiredCount - (tempClips.length : Int)).toNat
          tempClips (initialLastEnd segments tempClips)
      else tempClips
    tempClips2.take userDesiredCount.toNat
  else if 0 < userDesiredCount ∧ currentCandidates.length = 0 then []
  else currentCandidates

/-- The final validity filter (lines 505-516).  The `typeof` field checks
are identically true in this typed model. -/
def finalFilter (totalVideoDuration : ℚ) (clips : List Clip) : List Clip :=
  clips.filter fun clip =>
    decide (0 ≤ clip.startTimeSeconds) &&
      decide (clip.endTimeSeconds ≤ totalVideoDuration) &&
      decide (clip.startTimeSeconds < clip.endTimeSeconds) &&
      decide (2 ≤ clip.endTimeSeconds - clip.startTimeSeconds)

/-- The Clip Count Reconciler: selection followed by the final validity
filter, as applied to the deduplicated `uniqueClips` in the handler. -/
def reconcile (segments : List Segment) (uniqueClips : List Clip)
    (clipOption : ClipOption) (desiredClipCount : ClipCount)
    (desiredClipDuration : Option ℚ) : List Clip :=
  finalFilter (totalVideoDurationOf segments)
    (selectClips segments uniqueClips clipOption desiredClipCount desiredClipDuration)

/-! ## Candidate Extractor response handling (lines 290-334)

`JSON.parse` and the regex `/\[\s*\{[\s\S]*\}\s*\]/` are platform
builtins, modelled as parameters: `jsonParse` returns `none` exactly when
`JSON.parse` throws, and `arrayMatch` returns the regex match (if any) on
the raw output. -/

/-- A parsed JSON value (the output of `JSON.parse`). -/
inductive Json where
  | null
  | bool (b : Bool)
  | num (q : ℚ)
  | str (s : String)
  | arr (elems : List Json)
  | obj (fields : List (String × Json))

/-- JS property access `value.name` on a parsed value (objects produced
by `JSON.parse` have unique keys, later duplicates overriding earlier
ones, so a plain lookup is faithful); `none` models `undefined`. -/
def Json.getProp : Json → String → Option Json
  | .obj fields, name => fields.lookup name
  | _, _ => none

/-- JS truthiness of a parsed JSON value. -/
def Json.truthy : Json → Bool
  | .null => false
  | .bool b => b
  | .num q => decide (q ≠ 0)
  | .str s => decide (s ≠ "")
  | .arr _ => true
  | .obj _ => true

/-- Truthiness of `value.name` (`undefined` is falsy). -/
def Json.propTruthy (j : Json) (name : String) : Bool :=
  match j.getProp name with
  | some v => v.truthy
  | none => false

/-- `typeof v === 'object' && v !== null` (arrays are `'object'` too). -/
def Json.isObjectType : Json → Bool
  | .obj _ => true
  | .arr _ => true
  | _ => false

def Json.propIsString (j : Json) (name : String) : Bool :=
  match j.getProp name with
  | some (.str _) => true
  | _ => false

def Json.propIsNumber (j : Json) (name : String) : Bool :=
  match j.getProp name with
  | some (.num _) => true
  | _ => false

/-- The numeric value of `v.name` (only read after `propIsNumber`). -/
def Json.propNum (j : Json) (name : String) : ℚ :=
  match j.getProp name with
  | some (.num q) => q
  | _ => 0

/-- The string value of `v.name` (only read after `propIsString`). -/
def Json.propStr (j : Json) (name : String) : String :=
  match j.getProp name with
  | some (.str s) => s
  | _ => ""

/-- The per-element validity filter of lines 321-334. -/
def validClipJson (targetMinDuration targetMaxDuration chunkStartTime chunkEndTime : ℚ)
    (clip : Json) : Bool :=
  clip.isObjectType &&
    clip.propIsString "title" &&
    clip.propIsString "description" &&
    clip.propIsNumber "startTimeSeconds" &&
    clip.propIsNumber "endTimeSeconds" &&
    clip.propIsString "reason" &&
    decide (clip.propNum "startTimeSeconds" < clip.propNum "endTimeSeconds") &&
    decide (targetMinDuration ≤ clip.propNum "endTimeSeconds" - clip.propNum "startTimeSeconds") &&
    decide (clip.propNum "endTimeSeconds" - clip.propNum "startTimeSeconds" ≤ targetMaxDuration) &&
    decide (chunkStartTime ≤ clip.propNum "startTimeSeconds") &&
    decide (clip.propNum "endTimeSeconds" ≤ chunkEndTime)

/-- Reading a validated JSON clip object into a `Clip`. -/
def clipOfJson (j : Json) : Clip :=
  { title := j.propStr "title"
    description := j.propStr "description"
    startTimeSeconds := j.propNum "startTimeSeconds"
    endTimeSeconds := j.propNum "endTimeSeconds"
    reason := j.propStr "reason" }

/-- Lines 290-303: choose the string handed to `JSON.parse` — `"[]"` for
a null/undefined or blank response, else the regex match when the
bracket scan succeeds, else the whole raw output. -/
def chunkJsonString (rawChunkOutput : Option String)
    (arrayMatch : String → Option String) : String :=
  match rawChunkOutput with
  | none => "[]"
  | some s =>
    if jsTrim s.toList = [] then "[]"
    else
      match arrayMatch s with
      | some m => m
      | none => s

/-- Lines 305-319: parse (`none` = the `catch` branch, leaving the
initial `[]`), then the non-array coercion — wrap a non-null object with
a truthy `title`, coerce anything else to `[]`. -/
def coerceParsed : Option Json → List Json
  | none => []
  | some (.arr xs) => xs
  | some (.obj fields) =>
    if (Json.obj fields).propTruthy "title" then [.obj fields] else []
  | some _ => []

/-- The whole per-chunk response handling (lines 290-334): choose the
JSON string, parse, coerce to a list, filter for validity, and read the
survivors into clips. -/
def processChunkResponse (rawChunkOutput : Option String)
    (jsonParse : String → Option Json) (arrayMatch : String → Option String)
    (targetMinDuration targetMaxDuration chunkStartTime chunkEndTime : ℚ) : List Clip :=
  let jsonString := chunkJsonString rawChunkOutput arrayMatch
  let parsedChunkClips := coerceParsed (jsonParse jsonString)
  (parsedChunkClips.filter
      (validClipJson targetMinDuration targetMaxDuration chunkStartTime chunkEndTime)).map
    clipOfJson

/-! ## Supporting lemmas: strings -/

theorem jsTrim_eq_nil_iff (s : List Char) :
    jsTrim s = [] ↔ ∀ c ∈ s, c.isWhitespace := by
  unfold jsTrim
  rw [List.reverse_eq_nil_iff, List.dropWhile_eq_nil_iff]
  constructor
  · intro h c hc
    rcases List.mem_append.1
        (by rw [List.takeWhile_append_dropWhile (p := Char.isWhitespace)]; exact hc :
          c ∈ s.takeWhile Char.isWhitespace ++ s.dropWhile Char.isWhitespace) with h1 | h2
    · exact List.mem_takeWhile_imp h1
    · exact h c (List.mem_reverse.2 h2)
  · intro h c hc
    exact h c ((List.dropWhile_sublist Char.isWhitespace).mem (List.mem_reverse.1 hc))

theorem mem_jsJoin_of_mem {sep t : List Char} {ts : List (List Char)}
    (ht : t ∈ ts) {c : Char} (hc : c ∈ t) : c ∈ jsJoin sep ts := by
  induction ts with
  | nil => cases ht
  | cons x rest ih =>
    cases rest with
    | nil =>
      rcases List.mem_singleton.1 ht with rfl
      simpa [jsJoin] using hc
    | cons y rest2 =>
      show c ∈ x ++ sep ++ jsJoin sep (y :: rest2)
      rcases List.mem_cons.1 ht with rfl | ht2
      · exact List.mem_append.2 (Or.inl (List.mem_append.2 (Or.inl hc)))
      · exact List.mem_append.2 (Or.inr (ih ht2))

theorem jsTrim_jsJoin_ne_nil {sep t : List Char} {ts : List (List Char)}
    (ht : t ∈ ts) (htrim : jsTrim t ≠ []) : jsTrim (jsJoin sep ts) ≠ [] := by
  intro hnil
  apply htrim
  rw [jsTrim_eq_nil_iff]
  intro c hc
  exact (jsTrim_eq_nil_iff _).1 hnil c (mem_jsJoin_of_mem ht hc)

/-! ## Supporting lemmas: `jsFindIndex` -/

theorem jsFindIndex_lt_length {p : α → Bool} :
    ∀ {l : List α} {k : Nat}, jsFindIndex p l = some k → k < l.length := by
  intro l
  induction l with
  | nil => intro k h; cases h
  | cons a rest ih =>
    intro k h
    unfold jsFindIndex at h
    by_cases hp : p a
    · simp [hp] at h
      simp [← h]
    · simp [hp] at h
      rcases h with ⟨k2, hk2, rfl⟩
      have := ih hk2
      simp
      omega

theorem jsFindIndex_le {p : α → Bool} :
    ∀ {l : List α} {k j : Nat} (_ : jsFindIndex p l = some k) (hj : j < l.length),
      p (l.get ⟨j, hj⟩) = true → k ≤ j := by
  intro l
  induction l with
  | nil => intro k j h; cases h
  | cons a rest ih =>
    intro k j h hj hpj
    unfold jsFindIndex at h
    by_cases hp : p a
    · simp [hp] at h
      omega
    · simp [hp] at h
      rcases h with ⟨k2, hk2, rfl⟩
      cases j with
      | zero => simp at hpj; exact absurd hpj hp
      | succ j2 =>
        have := ih hk2 (by simpa using hj) (by simpa using hpj)
        omega

/-! ## Supporting lemmas: chunker step indices -/

theorem advanceEnd_ge (segments : List Segment) (t : ℚ) (i : Nat) :
    i ≤ advanceEnd segments t i :=
  Nat.le_add_right i _

theorem stepEndIdx_ge {segments : List Segment} {cs : ℚ} {i : Nat}
    (hi : i < segments.length) : i ≤ stepEndIdx segments cs i := by
  unfold stepEndIdx
  rw [List.getElem?_eq_getElem hi]
  dsimp only
  split
  · omega
  · exact advanceEnd_ge segments _ i

theorem stepEndIdx_lt {segments : List Segment} {cs : ℚ} {i : Nat}
    (hi : i < segments.length) : stepEndIdx segments cs i < segments.length := by
  unfold stepEndIdx
  rw [List.getElem?_eq_getElem hi]
  dsimp only
  split
  · omega
  · omega

theorem stepNext_gt {segments : List Segment} {cs ov : ℚ} {i : Nat}
    (hi : i < segments.length) : i < stepNext segments cs ov i := by
  have hE := @stepEndIdx_ge segments cs i hi
  unfold stepNext
  dsimp only
  split
  · omega
  · split
    · omega
    · omega

theorem stepNext_le {segments : List Segment} {cs ov : ℚ} {i : Nat}
    (hi : i < segments.length) (hov : 0 ≤ ov)
    (hcontig : segments.Chain' fun a b => a.stop ≤ b.start) :
    stepNext segments cs ov i ≤ stepEndIdx segments cs i + 1 := by
  have hElt : stepEndIdx segments cs i < segments.length := stepEndIdx_lt hi
  unfold stepNext
  dsimp only
  split
  · omega
  · rename_i k hk
    split
    · omega
    · rename_i hki
      by_cases hE : stepEndIdx segments cs i + 1 < segments.length
      · apply jsFindIndex_le hk hE
        rw [decide_eq_true_iff]
        have hchunkend :
            stepChunkEnd segments cs i = (segments.get ⟨stepEndIdx segments cs i, hElt⟩).stop := by
          unfold stepChunkEnd
          rw [List.getElem?_eq_getElem hElt]
          rfl
        rw [hchunkend]
        have hadj :
            (segments.get ⟨stepEndIdx segments cs i, hElt⟩).stop ≤
              (segments.get ⟨stepEndIdx segments cs i + 1, hE⟩).start := by
          have := List.chain'_iff_get.1 hcontig (stepEndIdx segments cs i) (by omega)
          exact this
        linarith
      · have := jsFindIndex_lt_length hk
        omega

theorem stepSlice_cons {segments : List Segment} {cs : ℚ} {i : Nat}
    (hi : i < segments.length) :
    stepSlice segments cs i =
      segments.get ⟨i, hi⟩ ::
        (segments.drop (i + 1)).take (stepEndIdx segments cs i - i) := by
  unfold stepSlice
  rw [List.drop_eq_getElem_cons hi]
  have h1 : stepEndIdx segments cs i + 1 - i = (stepEndIdx segments cs i - i) + 1 := by
    have := @stepEndIdx_ge segments cs i hi
    omega
  rw [h1, List.take_succ_cons]
  rfl

theorem mem_stepSlice {segments : List Segment} {cs : ℚ} {i m : Nat}
    (him : i ≤ m) (hmE : m ≤ stepEndIdx segments cs i) (hm : m < segments.length) :
    segments.get ⟨m, hm⟩ ∈ stepSlice segments cs i := by
  have hlen : m - i < (stepSlice segments cs i).length := by
    unfold stepSlice
    simp only [List.length_take, List.length_drop]
    omega
  have him2 : i + (m - i) = m := by omega
  have heq : (stepSlice segments cs i).get ⟨m - i, hlen⟩ = segments.get ⟨m, hm⟩ := by
    unfold stepSlice at hlen ⊢
    simp only [List.get_eq_getElem, List.getElem_take, List.getElem_drop]
    congr 1
  rw [← heq]
  exact List.get_mem _ _ _

theorem stepEmit_some {segments : List Segment} {cs : ℚ} {i : Nat}
    (hi : i < segments.length)
    (htext : ∀ s ∈ segments, jsTrim s.text ≠ []) :
    ∃ c, stepEmit segments cs i = some c ∧ c.segments = stepSlice segments cs i := by
  have hhead : (segments.get ⟨i, hi⟩).text ∈ (stepSlice segments cs i).map (·.text) := by
    rw [stepSlice_cons hi]
    simp
  have hne : jsTrim (jsJoin [' '] ((stepSlice segments cs i).map (·.text))) ≠ [] :=
    jsTrim_jsJoin_ne_nil hhead (htext _ (List.get_mem _ _ _))
  unfold stepEmit
  dsimp only
  rw [if_pos hne]
  exact ⟨_, rfl, rfl⟩

/-! ## Supporting lemmas: chunker loop -/

theorem chunkLoop_covers (segments : List Segment) (cs ov : ℚ) (hov : 0 ≤ ov)
    (hcontig : segments.Chain' fun a b => a.stop ≤ b.start)
    (htext : ∀ s ∈ segments, jsTrim s.text ≠ []) :
    ∀ (fuel i m : Nat) (hm : m < segments.length), i ≤ m → segments.length - i ≤ fuel →
      ∃ c ∈ chunkLoop segments cs ov fuel i, segments.get ⟨m, hm⟩ ∈ c.segments := by
  intro fuel
  induction fuel with
  | zero => intro i m hm him hfuel; omega
  | succ fuel ih =>
    intro i m hm him hfuel
    have hi : i < segments.length := Nat.lt_of_le_of_lt him hm
    rcases @stepEmit_some segments cs i hi htext with ⟨c, hemit, hcseg⟩
    by_cases hmE : m ≤ stepEndIdx segments cs i
    · refine ⟨c, ?_, ?_⟩
      · simp only [chunkLoop, if_pos hi, hemit]
        exact List.mem_append.2 (Or.inl (List.mem_singleton.2 rfl))
      · rw [hcseg]
        exact mem_stepSlice him hmE hm
    · have hnextle := @stepNext_le segments cs ov i hi hov hcontig
      have hnextgt := @stepNext_gt segments cs ov i hi
      rcases ih (stepNext segments cs ov i) m hm (by omega) (by omega) with ⟨c2, hc2, hm2⟩
      refine ⟨c2, ?_, hm2⟩
      simp only [chunkLoop, if_pos hi]
      exact List.mem_append.2 (Or.inr hc2)

theorem chunkLoopO_runs (segments : List Segment) (cs ov : ℚ) :
    ∀ (fuel : Nat), ∀ {i : Nat}, segments.length - i ≤ fuel →
      chunkLoopO segments cs ov fuel i = some (chunkLoop segments cs ov fuel i) := by
  intro fuel
  induction fuel with
  | zero =>
    intro i h
    have hi : ¬ i < segments.length := by omega
    simp [chunkLoopO, chunkLoop, hi]
  | succ fuel ih =>
    intro i h
    by_cases hi : i < segments.length
    · have hgt := @stepNext_gt segments cs ov i hi
      have hnext : segments.length - stepNext segments cs ov i ≤ fuel := by omega
      simp only [chunkLoopO, chunkLoop, if_pos hi, ih hnext]
    · simp [chunkLoopO, chunkLoop, hi]

/-- **C9** — Chunker termination: for every segment sequence,
`chunkSegments` terminates after at most `segments.length` iterations of
its outer loop: the `Option`-valued run with `segments.length` fuel never
exhausts its fuel and computes exactly `chunkSegments`, because the
cursor strictly increases on every iteration (either to the found
next-start index or past the current chunk's last segment). -/
theorem chunker_termination (segments : List Segment) (cs ov : ℚ) :
    chunkLoopO segments cs ov segments.length 0 = some (chunkSegments segments cs ov) := by
  unfold chunkSegments
  by_cases h0 : segments.length = 0
  · rw [if_pos h0, h0]
    simp [chunkLoopO, h0]
  · rw [if_neg h0]
    exact chunkLoopO_runs segments cs ov segments.length (by omega)

/-- **C3** (amended) — Chunk coverage: for a non-empty, start-ascending
segment sequence that is additionally time-contiguous (each segment's end
is at most the next segment's start), whose segment texts are all
non-blank, and with a nonnegative overlap, every input segment appears in
at least one chunk emitted by `chunkSegments`.  (As originally stated —
without the contiguity and non-blank-text hypotheses — the property is
false; see the counterexample.) -/
theorem chunk_coverage (segments : List Segment) (cs ov : ℚ) (hov : 0 ≤ ov)
    (_hasc : segments.Chain' fun a b => a.start ≤ b.start)
    (hcontig : segments.Chain' fun a b => a.stop ≤ b.start)
    (htext : ∀ s ∈ segments, jsTrim s.text ≠ [])
    (s : Segment) (hs : s ∈ segments) :
    ∃ c ∈ chunkSegments segments cs ov, s ∈ c.segments := by
  rcases List.getElem_of_mem hs with ⟨m, hm, rfl⟩
  have h0 : ¬ segments.length = 0 := by omega
  unfold chunkSegments
  rw [if_neg h0]
  exact chunkLoop_covers segments cs ov hov hcontig htext segments.length 0 m hm
    (by omega) (by omega)

/-- The three segments of the C3 counterexample: start-ascending, all
texts non-blank, but the first segment's end time (1000) overlaps far
past the second segment. -/
def coverageCexSegments : List Segment :=
  [⟨0, 1000, ['a']⟩, ⟨10, 11, ['b']⟩, ⟨995, 996, ['c']⟩]

/-- **C3 counterexample** — the claim as stated is false: these segments
are non-empty and start-ascending, yet the middle segment appears in no
chunk of `chunkSegments segments 180 20` (the first chunk ends at time
1000, and the cursor then jumps to the segment starting at 995, skipping
index 1 entirely). -/
theorem chunk_coverage_cex :
    (coverageCexSegments.Chain' fun a b => a.start ≤ b.start) ∧
      ¬ ∃ c ∈ chunkSegments coverageCexSegments 180 20,
          (⟨10, 11, ['b']⟩ : Segment) ∈ c.segments := by
  constructor
  · simp only [coverageCexSegments, List.chain'_cons, List.chain'_singleton, and_true]
    norm_num
  · with_unfolding_all decide

/-- The end-to-end scenario segments from the specification. -/
def coverageDemoSegments : List Segment :=
  [⟨0, 5, ['a']⟩, ⟨5, 35, ['b']⟩, ⟨35, 65, ['c']⟩]

/-- Witness for `chunk_coverage` at the specification's end-to-end
scenario (`windowSeconds = 180`, `overlapSeconds = 20`). -/
theorem chunk_coverage_witness :
    ∃ c ∈ chunkSegments coverageDemoSegments 180 20,
      (⟨5, 35, ['b']⟩ : Segment) ∈ c.segments :=
  chunk_coverage coverageDemoSegments 180 20 (by norm_num)
    (by simp only [coverageDemoSegments, List.chain'_cons, List.chain'_singleton, and_true]
        norm_num)
    (by simp only [coverageDemoSegments, List.chain'_cons, List.chain'_singleton, and_true]
        norm_num)
    (by with_unfolding_all decide)
    ⟨5, 35, ['b']⟩ (by with_unfolding_all decide)

/-! ## Supporting lemmas: stable sort -/

theorem insertClipBy_perm (lt : Clip → Clip → Bool) (c : Clip) :
    ∀ l : List Clip, (insertClipBy lt c l).Perm (c :: l) := by
  intro l
  induction l with
  | nil => simp [insertClipBy]
  | cons d rest ih =>
    unfold insertClipBy
    by_cases h : lt d c
    · rw [if_pos h]
      exact (ih.cons d).trans (List.Perm.swap c d rest)
    · rw [if_neg h]

theorem sortClipsBy_perm (lt : Clip → Clip → Bool) :
    ∀ l : List Clip, (sortClipsBy lt l).Perm l := by
  intro l
  induction l with
  | nil => simp [sortClipsBy]
  | cons c rest ih =>
    unfold sortClipsBy
    exact (insertClipBy_perm lt c (sortClipsBy lt rest)).trans (ih.cons c)

theorem mem_insertClipBy {lt : Clip → Clip → Bool} {c x : Clip} {l : List Clip} :
    x ∈ insertClipBy lt c l ↔ x = c ∨ x ∈ l :=
  ⟨fun h => by simpa using (insertClipBy_perm lt c l).mem_iff.1 h,
   fun h => (insertClipBy_perm lt c l).mem_iff.2 (by simpa using h)⟩

theorem pairwise_insertClipBy {c : Clip} {l : List Clip}
    (h : l.Pairwise fun a b => a.startTimeSeconds ≤ b.startTimeSeconds) :
    (insertClipBy byStartAsc c l).Pairwise
      fun a b => a.startTimeSeconds ≤ b.startTimeSeconds := by
  induction l with
  | nil => simp [insertClipBy]
  | cons d rest ih =>
    rcases List.pairwise_cons.1 h with ⟨hd, hrest⟩
    unfold insertClipBy
    by_cases hlt : byStartAsc d c
    · rw [if_pos hlt]
      refine List.pairwise_cons.2 ⟨?_, ih hrest⟩
      intro x hx
      rcases mem_insertClipBy.1 hx with rfl | hx2
      · exact le_of_lt (of_decide_eq_true hlt)
      · exact hd x hx2
    · rw [if_neg hlt]
      refine List.pairwise_cons.2 ⟨?_, h⟩
      intro x hx
      have hcd : c.startTimeSeconds ≤ d.startTimeSeconds := by
        simpa [byStartAsc] using hlt
      rcases List.mem_cons.1 hx with rfl | hx2
      · exact hcd
      · exact hcd.trans (hd x hx2)

theorem pairwise_sortClipsBy (l : List Clip) :
    (sortClipsBy byStartAsc l).Pairwise
      fun a b => a.startTimeSeconds ≤ b.startTimeSeconds := by
  induction l with
  | nil => simp [sortClipsBy]
  | cons c rest ih =>
    unfold sortClipsBy
    exact pairwise_insertClipBy ih

/-! ## Supporting lemmas: deduplicator -/

theorem pairwise_dedupeAux :
    ∀ (l acc : List Clip), (acc.Pairwise fun a b => isDuplicateOf b a = false) →
      (dedupeAux acc l).Pairwise fun a b => isDuplicateOf b a = false := by
  intro l
  induction l with
  | nil => intro acc h; exact h
  | cons c rest ih =>
    intro acc h
    unfold dedupeAux
    by_cases hdup : acc.any (isDuplicateOf c)
    · rw [if_pos hdup]
      exact ih acc h
    · rw [if_neg hdup]
      apply ih
      rw [List.pairwise_append]
      refine ⟨h, List.pairwise_singleton .., ?_⟩
      intro a ha b hb
      rcases List.mem_singleton.1 hb with rfl
      by_contra hne
      exact hdup (List.any_eq_true.2 ⟨a, ha, by simpa using hne⟩)

theorem dedupeAux_fixed :
    ∀ (out acc : List Clip),
      (out.Pairwise fun a b => isDuplicateOf b a = false) →
      (∀ c ∈ out, ∀ a ∈ acc, isDuplicateOf c a = false) →
      dedupeAux acc out = acc ++ out := by
  intro out
  induction out with
  | nil => intro acc _ _; simp [dedupeAux]
  | cons c rest ih =>
    intro acc hpw hcross
    rcases List.pairwise_cons.1 hpw with ⟨hc, hrest⟩
    unfold dedupeAux
    have hany : ¬ (acc.any (isDuplicateOf c) = true) := by
      intro hx
      rcases List.any_eq_true.1 hx with ⟨a, ha, hdup⟩
      rw [hcross c (List.mem_cons_self c rest) a ha] at hdup
      cases hdup
    rw [if_neg hany]
    rw [ih (acc ++ [c]) hrest ?_]
    · simp
    · intro d hd a ha
      rcases List.mem_append.1 ha with ha1 | ha2
      · exact hcross d (List.mem_cons_of_mem c hd) a ha1
      · rcases List.mem_singleton.1 ha2 with rfl
        exact hc d hd

/-- **C2** (amended) — Dedup idempotence holds for the first-seen-wins
overlap filter alone: running the filter a second time on its own (still
unsorted) output removes nothing.  The full Deduplicator — filter
followed by the sort on `startTimeSeconds` — is *not* idempotent, because
sorting can move a long clip in front of a short clip that arrived
earlier and is nested inside it, and the second run then discards the
short clip (see the counterexample). -/
theorem dedup_filter_idempotent (candidates : List Clip) :
    dedupeAux [] (dedupeAux [] candidates) = dedupeAux [] candidates := by
  have h1 := pairwise_dedupeAux candidates [] List.Pairwise.nil
  have h2 := dedupeAux_fixed (dedupeAux [] candidates) [] h1 (by intro c _ a ha; cases ha)
  simpa using h2

/-- **C2 counterexample** — the Deduplicator (filter + sort) is not a
fixed point of itself: with the arrival order `[10,12]`, `[0,100]` both
clips survive (neither is a duplicate of the earlier-seen one), the sort
swaps them, and the second run then discards `[10,12]` as nested inside
`[0,100] + 5`. -/
theorem dedup_idempotence_cex :
    dedupe (dedupe [⟨"A", "", 10, 12, ""⟩, ⟨"B", "", 0, 100, ""⟩]) ≠
      dedupe [⟨"A", "", 10, 12, ""⟩, ⟨"B", "", 0, 100, ""⟩] := by
  with_unfolding_all decide

/-- **C7** — Dedup ordering: for every candidate list the Deduplicator's
output is sorted ascending by `startTimeSeconds`, and every two output
clips have start times at least `overlapThreshold = 5` seconds apart. -/
theorem dedup_ordering (candidates : List Clip) :
    ((dedupe candidates).Pairwise fun a b =>
        a.startTimeSeconds ≤ b.startTimeSeconds) ∧
      ((dedupe candidates).Pairwise fun a b =>
        overlapThreshold ≤ |a.startTimeSeconds - b.startTimeSeconds|) := by
  constructor
  · exact pairwise_sortClipsBy _
  · have hperm : (dedupe candidates).Perm (dedupeAux [] candidates) :=
      sortClipsBy_perm _ _
    have hpw := pairwise_dedupeAux candidates [] List.Pairwise.nil
    have hgap : (dedupeAux [] candidates).Pairwise
        fun a b => overlapThreshold ≤ |a.startTimeSeconds - b.startTimeSeconds| := by
      refine hpw.imp ?_
      intro a b hab
      have h1 : ¬ (|b.startTimeSeconds - a.startTimeSeconds| < overlapThreshold) := by
        intro hlt
        unfold isDuplicateOf at hab
        simp [hlt] at hab
      rw [abs_sub_comm]
      exact not_lt.1 h1
    exact (hperm.pairwise_iff
      (fun h => by rw [abs_sub_comm]; exact h)).2 hgap

/-! ## Reconciler claims -/

/-- **C8** — Split correctness: splitting the clip spanning `[10, 40]`
(the only candidate, with two clips requested and the default
`targetMinDuration = 10`) yields exactly the two parts `[10, 25]` and
`[25, 40]`, titled with the "(Part A)"/"(Part B)" suffixes; part A ends
exactly where part B starts (25 = the midpoint), so together they cover
`[10, 40]` with no gap and no overlap. -/
theorem split_correctness :
    splitPass 10 2 6 [⟨"Clip", "d", 10, 40, "r"⟩] =
      [⟨"Clip (Part A)", "d", 10, 25, "r (Split to meet count)"⟩,
       ⟨"Clip (Part B)", "d", 25, 40, "r (Split to meet count)"⟩] := by
  with_unfolding_all decide

/-- **C4** — Final-output validity: every clip in the final output of
the detect-clips pipeline satisfies
`0 ≤ startTimeSeconds < endTimeSeconds ≤ totalVideoDuration` and has
duration at least 2 seconds, where `totalVideoDuration` is the last
segment's end time (0 when there are no segments). -/
theorem final_clip_validity (segments : List Segment) (uniqueClips : List Clip)
    (clipOption : ClipOption) (desiredClipCount : ClipCount)
    (desiredClipDuration : Option ℚ) (c : Clip)
    (hc : c ∈ reconcile segments uniqueClips clipOption desiredClipCount desiredClipDuration) :
    0 ≤ c.startTimeSeconds ∧ c.startTimeSeconds < c.endTimeSeconds ∧
      c.endTimeSeconds ≤ totalVideoDurationOf segments ∧
      2 ≤ c.endTimeSeconds - c.startTimeSeconds := by
  unfold reconcile finalFilter at hc
  rw [List.mem_filter] at hc
  rcases hc with ⟨_, hcond⟩
  simp only [Bool.and_eq_true, decide_eq_true_eq] at hcond
  exact ⟨hcond.1.1.1, hcond.1.2, hcond.1.1.2, hcond.2⟩

/-- Witness input for `final_clip_validity`: one 30-second segment and
one in-bounds 20-second candidate, which the pipeline returns as-is. -/
def validityDemoClip : Clip := ⟨"T", "D", 0, 20, "R"⟩

/-- Witness for `final_clip_validity` at a concrete input on which the
reconciler emits `validityDemoClip`. -/
theorem final_clip_validity_witness :
    0 ≤ validityDemoClip.startTimeSeconds ∧
      validityDemoClip.startTimeSeconds < validityDemoClip.endTimeSeconds ∧
      validityDemoClip.endTimeSeconds ≤ totalVideoDurationOf [⟨0, 30, ['a']⟩] ∧
      2 ≤ validityDemoClip.endTimeSeconds - validityDemoClip.startTimeSeconds :=
  final_clip_validity [⟨0, 30, ['a']⟩] [validityDemoClip] .userChoice (.num 1) none
    validityDemoClip (by with_unfolding_all decide)

/-- **C6** — Zero-candidate behaviour: when the deduplicated candidate
list is empty and a positive clip count is requested, the reconciler
returns the empty list — no filler clips are synthesized, even when
`totalVideoDuration > 0`. -/
theorem zero_candidates_empty (segments : List Segment) (d : Option ℚ) (N : Int)
    (hN : 0 < N) :
    reconcile segments [] .userChoice (.num N) d = [] := by
  unfold reconcile selectClips
  simp only [currentCandidatesOf, List.filter_nil, List.length_nil, userDesiredCountOf,
    Nat.cast_zero]
  split
  · rename_i h
    exact absurd h (by omega)
  · split
    · rename_i h
      exact absurd h (by omega)
    · split
      · simp [finalFilter]
      · rename_i h
        exact absurd ⟨hN, trivial⟩ h

/-- Witness for `zero_candidates_empty` with three requested clips and a
video of positive duration. -/
theorem zero_candidates_empty_witness :
    reconcile [⟨0, 30, ['a']⟩] [] .userChoice (.num 3) none = [] :=
  zero_candidates_empty [⟨0, 30, ['a']⟩] none 3 (by norm_num)

/-- **C1** (amended) — Reconciler count law for `mode = userChoice`,
`desiredCount = N > 0`: the final output length never exceeds `N`; and
whenever the *duration-re-filtered* candidate list still has at least `N`
clips, the selection made before the final validity filter has length
exactly `N`.  (As originally stated — with the hypothesis on the raw
deduplicated list and the conclusion on the final output — the law is
false: the duration re-filter and the final validity filter can each
drop clips below `N`; see the counterexample.) -/
theorem reconciler_count_law (segments : List Segment) (uniqueClips : List Clip)
    (d : Option ℚ) (N : Int) (hN : 0 < N) :
    ((reconcile segments uniqueClips .userChoice (.num N) d).length : Int) ≤ N ∧
      (N ≤ ((currentCandidatesOf (targetBounds d).1 (targetBounds d).2 uniqueClips).length : Int) →
        ((selectClips segments uniqueClips .userChoice (.num N) d).length : Int) = N) := by
  have hsel : (selectClips segments uniqueClips .userChoice (.num N) d).length ≤ N.toNat := by
    simp only [selectClips, userDesiredCountOf]
    split
    · simp [List.length_take]
    · split
      · simp [List.length_take]
      · split
        · simp
        · rename_i h1 h2 h3
          exfalso
          omega
  constructor
  · have hff : (reconcile segments uniqueClips .userChoice (.num N) d).length ≤
        (selectClips segments uniqueClips .userChoice (.num N) d).length := by
      unfold reconcile finalFilter
      exact List.length_filter_le _ _
    omega
  · intro hge
    simp only [selectClips, userDesiredCountOf]
    rw [if_pos ⟨hN, hge⟩, List.length_take]
    omega

/-- **C1 counterexample** — the original count law is false: one unique
candidate (so `unique.length ≥ N = 1`) spanning `[0, 50]` with a
30-second video passes the duration re-filter (duration 50 is within the
default bounds `[10, 60]`), is selected, and is then dropped by the final
validity filter because its end time 50 exceeds `totalVideoDuration =
30` — the final output is empty, not of length 1. -/
theorem reconciler_count_cex :
    reconcile [⟨0, 30, ['a']⟩] [⟨"T", "D", 0, 50, "R"⟩] .userChoice (.num 1) none = [] := by
  with_unfolding_all decide

/-- Witness for `reconciler_count_law` at `N = 1` with one valid
candidate. -/
theorem reconciler_count_law_witness :
    ((reconcile [⟨0, 30, ['a']⟩] [⟨"T", "D", 0, 20, "R"⟩] .userChoice (.num 1) none).length : Int) ≤ 1 ∧
      (1 ≤ ((currentCandidatesOf (targetBounds none).1 (targetBounds none).2
            [⟨"T", "D", 0, 20, "R"⟩]).length : Int) →
        ((selectClips [⟨0, 30, ['a']⟩] [⟨"T", "D", 0, 20, "R"⟩] .userChoice
            (.num 1) none).length : Int) = 1) :=
  reconciler_count_law [⟨0, 30, ['a']⟩] [⟨"T", "D", 0, 20, "R"⟩] none 1 (by norm_num)

/-! ## Supporting lemmas: filler loop -/

theorem fillerRunO_runs (segments : List Segment) (totalDur : ℚ) (d : Option ℚ)
    (tm : ℚ) (udc : Int) :
    ∀ (fuel : Nat) (tempClips : List Clip) (lastEnd : ℚ),
      (udc - (tempClips.length : Int)).toNat ≤ fuel →
      fillerRunO segments totalDur d tm udc fuel tempClips lastEnd =
        some (fillerLoop segments totalDur d tm udc fuel tempClips lastEnd) := by
  intro fuel
  induction fuel with
  | zero =>
    intro tempClips lastEnd hfuel
    unfold fillerRunO fillerLoop
    rw [if_neg (fun hg => absurd hg.1 (by omega))]
  | succ fuel ih =>
    intro tempClips lastEnd hfuel
    by_cases hg : (tempClips.length : Int) < udc ∧ lastEnd < totalDur
    · unfold fillerRunO fillerLoop
      rw [if_pos hg, if_pos hg]
      cases hstep : fillerStep segments totalDur d tm tempClips lastEnd with
      | none => rfl
      | some p =>
        have hlen : (udc - ((tempClips ++ [p.1]).length : Int)).toNat ≤ fuel := by
          simp only [List.length_append, List.length_singleton]
          omega
        exact ih (tempClips ++ [p.1]) p.2 hlen
    · unfold fillerRunO fillerLoop
      rw [if_neg hg, if_neg hg]

theorem fillerLoop_length_le (segments : List Segment) (totalDur : ℚ) (d : Option ℚ)
    (tm : ℚ) (udc : Int) :
    ∀ (fuel : Nat) (tempClips : List Clip) (lastEnd : ℚ),
      (fillerLoop segments totalDur d tm udc fuel tempClips lastEnd).length ≤
        tempClips.length + fuel := by
  intro fuel
  induction fuel with
  | zero => intro tempClips lastEnd; simp [fillerLoop]
  | succ fuel ih =>
    intro tempClips lastEnd
    unfold fillerLoop
    split
    · cases hstep : fillerStep segments totalDur d tm tempClips lastEnd with
      | none => dsimp only; omega
      | some p =>
        dsimp only
        have := ih (tempClips ++ [p.1]) p.2
        simp only [List.length_append, List.length_singleton] at this
        omega
    · omega

theorem fillerStep_advance (segments : List Segment) (totalDur : ℚ) (d : Option ℚ)
    (tm : ℚ) (tempClips : List Clip) (lastEnd : ℚ) (c : Clip) (newEnd : ℚ)
    (h : fillerStep segments totalDur d tm tempClips lastEnd = some (c, newEnd)) :
    lastEnd + tm / 2 ≤ newEnd := by
  unfold fillerStep at h
  cases d with
  | none =>
    dsimp only at h
    split at h
    · split at h
      · cases h
      · rename_i hcond
        rw [Option.some.injEq, Prod.mk.injEq] at h
        rcases h with ⟨-, rfl⟩
        linarith [not_lt.1 hcond]
    · cases h
  | some dur =>
    dsimp only at h
    by_cases hlen : segments.length > 0
    · simp only [if_pos hlen] at h
      cases hfind : segments.find? (fun s =>
          decide (lastEnd ≤ s.start) && decide (s.start < min (lastEnd + dur) totalDur)) with
      | none =>
        rw [hfind] at h
        dsimp only at h
        split at h
        · cases h
        · rename_i hcond
          rw [Option.some.injEq, Prod.mk.injEq] at h
          rcases h with ⟨-, rfl⟩
          linarith [not_lt.1 hcond]
      | some s =>
        rw [hfind] at h
        dsimp only at h
        have hp := List.find?_some hfind
        simp only [Bool.and_eq_true, decide_eq_true_eq] at hp
        split at h
        · cases h
        · rename_i hcond
          rw [Option.some.injEq, Prod.mk.injEq] at h
          rcases h with ⟨-, rfl⟩
          have h2 := not_lt.1 hcond
          linarith [hp.1]
    · simp only [if_neg hlen] at h
      split at h
      · cases h
      · rename_i hcond
        rw [Option.some.injEq, Prod.mk.injEq] at h
        rcases h with ⟨-, rfl⟩
        have h2 := not_lt.1 hcond
        have : lastEnd + dur ≤ lastEnd + dur := le_refl _
        have hmin : min (lastEnd + dur) totalDur - lastEnd ≥ tm / 2 := by linarith
        have : lastEnd + tm / 2 ≤ min (lastEnd + dur) totalDur := by linarith
        exact this

/-- **C10** (amended) — Filler-pass termination: the filler loop
terminates for every input — running it with
`(userDesiredCount - tempClips.length).toNat` fuel never exhausts the
fuel (the `Option`-valued run succeeds), because every iteration either
breaks or appends exactly one clip while the guard requires
`tempClips.length < userDesiredCount`; consequently at most
`max 0 (userDesiredCount - tempClips.length)` filler clips are ever
generated, and each generated clip ends at least `targetMinDuration / 2`
past the running `lastEndTime`.  (The originally claimed bound of
`ceil(totalVideoDuration / (targetMinDuration / 2))` filler clips fails
when the loop starts at a negative `lastEndTime`; see the
counterexample.) -/
theorem filler_termination :
    (∀ (segments : List Segment) (totalDur : ℚ) (d : Option ℚ) (tm : ℚ) (udc : Int)
        (tempClips : List Clip) (lastEnd : ℚ),
        fillerRunO segments totalDur d tm udc ((udc - (tempClips.length : Int)).toNat)
            tempClips lastEnd =
          some (fillerLoop segments totalDur d tm udc
            ((udc - (tempClips.length : Int)).toNat) tempClips lastEnd)) ∧
      (∀ (segments : List Segment) (totalDur : ℚ) (d : Option ℚ) (tm : ℚ) (udc : Int)
          (fuel : Nat) (tempClips : List Clip) (lastEnd : ℚ),
        (fillerLoop segments totalDur d tm udc fuel tempClips lastEnd).length ≤
          tempClips.length + fuel) ∧
      (∀ (segments : List Segment) (totalDur : ℚ) (d : Option ℚ) (tm : ℚ)
          (tempClips : List Clip) (lastEnd : ℚ) (c : Clip) (newEnd : ℚ),
        fillerStep segments totalDur d tm tempClips lastEnd = some (c, newEnd) →
          lastEnd + tm / 2 ≤ newEnd) :=
  ⟨fun segments totalDur d tm udc tempClips lastEnd =>
      fillerRunO_runs segments totalDur d tm udc _ tempClips lastEnd (le_refl _),
   fun segments totalDur d tm udc fuel tempClips lastEnd =>
      fillerLoop_length_le segments totalDur d tm udc fuel tempClips lastEnd,
   fun segments totalDur d tm tempClips lastEnd c newEnd h =>
      fillerStep_advance segments totalDur d tm tempClips lastEnd c newEnd h⟩

/-- The segments of the C10 counterexample: six contiguous five-second
segments running from time -20 to time 10 (`totalVideoDuration = 10`). -/
def fillerCexSegments : List Segment :=
  [⟨-20, -15, ['a']⟩, ⟨-15, -10, ['b']⟩, ⟨-10, -5, ['c']⟩,
   ⟨-5, 0, ['d']⟩, ⟨0, 5, ['e']⟩, ⟨5, 10, ['f']⟩]

/-- **C10 counterexample** — the claimed `ceil(totalVideoDuration /
(targetMinDuration / 2))` bound on the number of filler clips is false:
with `totalVideoDuration = 10`, `desiredClipDuration = 5` and
`targetMinDuration = 5` the bound is `ceil(10 / 2.5) = 4`, yet starting
from one candidate ending at -15 the loop generates five filler clips
(the output grows from one clip to six). -/
theorem filler_ceil_cex :
    (fillerLoop fillerCexSegments 10 (some 5) 5 10 9 [⟨"C", "", -20, -15, ""⟩] (-15)).length = 6 ∧
      ⌈(10 : ℚ) / (5 / 2)⌉ = 4 := by
  constructor
  · with_unfolding_all decide
  · norm_num

/-- Witness for the hypothesis-bearing part of `filler_termination`: on a
single 30-second segment with `desiredClipDuration = 10` and
`targetMinDuration = 5`, the first filler step starting at `lastEndTime
= 0` emits a clip snapped to the segment's end, and `0 + 5/2 ≤ 30`. -/
theorem filler_termination_witness : (0 : ℚ) + 5 / 2 ≤ 30 :=
  filler_termination.2.2 [⟨0, 30, ['a']⟩] 30 (some 10) 5 [] 0
    ⟨"Auto-Generated Clip 1", "Automatically generated segment from video.", 0, 30,
      "Automatically generated to meet user's clip count request."⟩ 30
    (by with_unfolding_all decide)

/-! ## Extractor claims -/

/-- **C5** (amended) — Extractor response-handling chain: the handler is
a total function of the raw response (it never raises), and for every
parse function modelling `JSON.parse` and every regex-match function:
(1) a null/undefined or blank raw response is handed to the parser as
the literal string `"[]"` and yields the empty candidate list;
(2) whenever the parser fails on the chosen JSON string (the `catch`
branch), the chunk yields the empty candidate list;
(3) a parsed single (non-array) object is wrapped into a one-element
list before the validity filter *provided its `title` property is
truthy*; the survivors of the validity filter are returned.  (As
originally stated the wrap applies to every well-formed clip object, but
the source tests `parsedChunkClips.title`, so a well-formed object whose
title is the empty string is coerced to the empty list instead; see the
counterexample.) -/
theorem extractor_response_chain :
    (∀ (jsonParse : String → Option Json) (arrayMatch : String → Option String)
        (tmin tmax cstart cend : ℚ),
        jsonParse "[]" = some (.arr []) →
        processChunkResponse none jsonParse arrayMatch tmin tmax cstart cend = [] ∧
          ∀ s : String, jsTrim s.toList = [] →
            processChunkResponse (some s) jsonParse arrayMatch tmin tmax cstart cend = []) ∧
      (∀ (raw : Option String) (jsonParse : String → Option Json)
          (arrayMatch : String → Option String) (tmin tmax cstart cend : ℚ),
        jsonParse (chunkJsonString raw arrayMatch) = none →
        processChunkResponse raw jsonParse arrayMatch tmin tmax cstart cend = []) ∧
      (∀ (raw : Option String) (jsonParse : String → Option Json)
          (arrayMatch : String → Option String) (tmin tmax cstart cend : ℚ)
          (fields : List (String × Json)),
        jsonParse (chunkJsonString raw arrayMatch) = some (.obj fields) →
        (Json.obj fields).propTruthy "title" = true →
        processChunkResponse raw jsonParse arrayMatch tmin tmax cstart cend =
          if validClipJson tmin tmax cstart cend (.obj fields) then
            [clipOfJson (.obj fields)]
          else []) := by
  refine ⟨?_, ?_, ?_⟩
  · intro jsonParse arrayMatch tmin tmax cstart cend hparse
    constructor
    · unfold processChunkResponse chunkJsonString
      dsimp only
      rw [hparse]
      rfl
    · intro s hblank
      unfold processChunkResponse chunkJsonString
      dsimp only
      rw [if_pos hblank, hparse]
      rfl
  · intro raw jsonParse arrayMatch tmin tmax cstart cend hfail
    unfold processChunkResponse
    dsimp only
    rw [hfail]
    rfl
  · intro raw jsonParse arrayMatch tmin tmax cstart cend fields hobj htruthy
    unfold processChunkResponse
    dsimp only
    rw [hobj]
    by_cases hv : validClipJson tmin tmax cstart cend (.obj fields) = true
    · simp [coerceParsed, htruthy, hv]
    · simp [coerceParsed, htruthy, hv]

/-- The C5 counterexample object: a well-formed clip object in the sense
of the validity filter (all five fields of the right types, valid times
within chunk `[0, 30]` and duration within bounds `[10, 60]`) whose
`title` is the empty string. -/
def wrapCexJson : Json :=
  .obj [("title", .str ""), ("description", .str "d"), ("startTimeSeconds", .num 1),
        ("endTimeSeconds", .num 20), ("reason", .str "r")]

/-- A parse stub for the counterexample run: parses the raw output
`"RAW"` to `wrapCexJson` (and fails on everything else). -/
def wrapCexParse : String → Option Json :=
  fun s => if s = "RAW" then some wrapCexJson else none

/-- **C5 counterexample** — the wrap step is not applied to every parsed
single well-formed clip object: `wrapCexJson` passes the validity filter
(so a wrapped one-element list would survive to a one-element output),
but because its `title` is the falsy empty string the source coerces the
parse result to the empty list and the chunk yields no candidates. -/
theorem extractor_wrap_cex :
    validClipJson 10 60 0 30 wrapCexJson = true ∧
      processChunkResponse (some "RAW") wrapCexParse (fun _ => none) 10 60 0 30 = [] := by
  constructor
  · with_unfolding_all decide
  · with_unfolding_all decide

/-- A parse stub behaving like `JSON.parse` on the literal `"[]"`. -/
def emptyArrayParse : String → Option Json :=
  fun s => if s = "[]" then some (.arr []) else none

/-- Witness for `extractor_response_chain`: the null response and the
blank response `""` both yield the empty candidate list. -/
theorem extractor_response_chain_witness :
    processChunkResponse none emptyArrayParse (fun _ => none) 10 60 0 30 = [] ∧
      processChunkResponse (some "") emptyArrayParse (fun _ => none) 10 60 0 30 = [] :=
  ⟨(extractor_response_chain.1 emptyArrayParse (fun _ => none) 10 60 0 30
      (by with_unfolding_all rfl)).1,
   (extractor_response_chain.1 emptyArrayParse (fun _ => none) 10 60 0 30
      (by with_unfolding_all rfl)).2 "" (by with_unfolding_all rfl)⟩
